import Mathlib

/-!
Verification of the scheduling core of the periodic-api repository.

Conventions of the embedding:
* Go time.Time instants are modelled as Int nanoseconds since the epoch;
  t1.After(t2) is t2 < t1 and t1.Before(t2) is t1 < t2.
* Go int64 identifiers are modelled as Int.
* The third-party cron library (robfig/cron) is modelled abstractly: a parser
  is a function from expression strings to an optional Next function
  (Int to Int); properties of a genuine cron schedule (progress,
  monotonicity, minimum spacing between occurrences) appear as explicit
  hypotheses where a theorem needs them.
* Go map[int64]T values are modelled as association lists with the helper
  operations mapLookup / mapInsert / mapErase / mapMember; iteration order
  of the Go map is abstracted by the list order of the state.
* A Go slice expression that would panic is modelled by returning none.
-/

/-- One second, in nanoseconds: the duration subtracted by
startsAt.Add(-time.Second) in CalculateNextExecution. -/
def second : Int := 1000000000

/-- Data model of internal/models/scheduled_item.go (next_execution_at is
non-nullable per migration 000004). -/
structure ScheduledItem where
  id : Int
  title : String
  description : String
  startsAt : Int
  repeats : Bool
  cronExpression : Option String
  expiration : Option Int
  nextExecutionAt : Int
deriving DecidableEq

/-- Data model of internal/models/execution_log.go. -/
structure ExecutionLog where
  id : Int
  scheduledItemId : Int
  executedAt : Int
  status : String
  errorMessage : Option String
  todoItemId : Option Int
deriving DecidableEq

/-- Data model of the todo item (id, text, checked). -/
structure TodoItem where
  id : Int
  text : String
  checked : Bool
deriving DecidableEq

/-- Embedding of the Go test `expiration != nil && x.After(*expiration)`
used twice inside CalculateNextExecution. -/
def afterTime (expiration : Option Int) (x : Int) : Bool :=
  match expiration with
  | some e => decide (e < x)
  | none => false

/-- Embedding of utils.CalculateNextExecution
(internal/utils, CalculateNextExecution). The cron library is abstracted by
the parse argument: parse expr is none when parser.Parse fails, and
some f when it yields a schedule whose Next function is f. The Go
call time.Now() becomes the explicit now argument. -/
def CalculateNextExecution (parse : String → Option (Int → Int))
    (startsAt : Int) (repeats : Bool) (cronExpression : Option String)
    (expiration : Option Int) (now : Int) : Option Int :=
  if !repeats then
    if now < startsAt then some startsAt else none
  else
    match cronExpression with
    | none => none
    | some expr =>
      if expr = "" then none
      else
        match parse expr with
        | none => none
        | some schedNext =>
          let nextTime := schedNext now
          if afterTime expiration nextTime then none
          else if nextTime < startsAt then
            let nextTime2 := schedNext (startsAt - second)
            if afterTime expiration nextTime2 then none
            else some nextTime2
          else some nextTime

/-- A concrete schedule Next function used in concrete evaluations: fires
60 units after any instant. -/
def demoNext : Int → Int := fun t => t + 60

/-- A concrete cron parser used in concrete evaluations: every expression
parses to demoNext. -/
def demoParse : String → Option (Int → Int) := fun _ => some demoNext

/-- Lookup in the association-list model of a Go map[int64]T. -/
def mapLookup {α : Type} : List (Int × α) → Int → Option α
  | [], _ => none
  | p :: rest, k => if p.1 = k then some p.2 else mapLookup rest k

/-- Key-membership test in the association-list model of a Go map. -/
def mapMember {α : Type} : List (Int × α) → Int → Bool
  | [], _ => false
  | p :: rest, k => if p.1 = k then true else mapMember rest k

/-- Insertion (assignment m[k] = v) in the association-list model of a Go
map: replaces an existing binding, otherwise appends a new one. -/
def mapInsert {α : Type} (m : List (Int × α)) (k : Int) (v : α) :
    List (Int × α) :=
  if mapMember m k then m.map (fun p => if p.1 = k then (k, v) else p)
  else m ++ [(k, v)]

/-- Deletion (delete(m, k)) in the association-list model of a Go map. -/
def mapErase {α : Type} : List (Int × α) → Int → List (Int × α)
  | [], _ => []
  | p :: rest, k => if p.1 = k then mapErase rest k else p :: mapErase rest k

/-- State of the in-memory scheduled item store
(internal/store/scheduled_item_memory_store.go). -/
structure MemoryScheduledItemStore where
  items : List (Int × ScheduledItem)
  nextID : Int
deriving DecidableEq

/-- Embedding of NewMemoryScheduledItemStore: empty map, nextID 1. -/
def NewMemoryScheduledItemStore : MemoryScheduledItemStore :=
  { items := [], nextID := 1 }

/-- Embedding of MemoryScheduledItemStore.CreateScheduledItem: assigns the
current nextID to the item, increments nextID, stores the item, and returns
it. -/
def MemoryScheduledItemStore.CreateScheduledItem
    (s : MemoryScheduledItemStore) (item : ScheduledItem) :
    ScheduledItem × MemoryScheduledItemStore :=
  let item1 := { item with id := s.nextID }
  (item1,
   { items := mapInsert s.items item1.id item1, nextID := s.nextID + 1 })

/-- Embedding of MemoryScheduledItemStore.GetScheduledItem. -/
def MemoryScheduledItemStore.GetScheduledItem
    (s : MemoryScheduledItemStore) (id : Int) : Option ScheduledItem :=
  mapLookup s.items id

/-- Embedding of MemoryScheduledItemStore.UpdateNextExecutionAt: updates the
next execution time of a stored item, returning false when the id is
absent. -/
def MemoryScheduledItemStore.UpdateNextExecutionAt
    (s : MemoryScheduledItemStore) (id : Int) (nextExecutionAt : Int) :
    Bool × MemoryScheduledItemStore :=
  match mapLookup s.items id with
  | none => (false, s)
  | some item =>
    (true,
     { s with items := mapInsert s.items id
                { item with nextExecutionAt := nextExecutionAt } })

/-- Embedding of MemoryScheduledItemStore.DeleteScheduledItem. -/
def MemoryScheduledItemStore.DeleteScheduledItem
    (s : MemoryScheduledItemStore) (id : Int) :
    Bool × MemoryScheduledItemStore :=
  match mapLookup s.items id with
  | none => (false, s)
  | some _ => (true, { s with items := mapErase s.items id })

/-- Insertion step of the sort by ascending nextExecutionAt. -/
def insertByNextExec (x : ScheduledItem) :
    List ScheduledItem → List ScheduledItem
  | [] => [x]
  | y :: ys =>
    if x.nextExecutionAt ≤ y.nextExecutionAt then x :: y :: ys
    else y :: insertByNextExec x ys

/-- Sort by ascending nextExecutionAt, modelling sort.Slice with the
comparison NextExecutionAt.Before (order among equal keys is not specified
by the Go code, which iterates a map and sorts unstably). -/
def sortByNextExec : List ScheduledItem → List ScheduledItem
  | [] => []
  | x :: xs => insertByNextExec x (sortByNextExec xs)

/-- Embedding of MemoryScheduledItemStore.GetNextScheduledItems: filters
items that are due (not NextExecutionAt.After(now)) and not expired (not
(Expiration present and now.After(*Expiration))), sorts ascending by
nextExecutionAt, then slices itemsDue[startIndex:endIndex] where endIndex
is clamped to the length but startIndex is not; a slice expression with
startIndex out of range panics in Go, modelled here by none. -/
def MemoryScheduledItemStore.GetNextScheduledItems
    (s : MemoryScheduledItemStore) (limit : Int) (offset : Int) (now : Int) :
    Option (List ScheduledItem) :=
  let itemsDue := (s.items.map Prod.snd).filter (fun item =>
    !(decide (now < item.nextExecutionAt)) &&
    !(match item.expiration with
      | some e => decide (e < now)
      | none => false))
  let sorted := sortByNextExec itemsDue
  let startIndex : Int := offset
  let endIndex : Int :=
    if startIndex + limit > (sorted.length : Int) then (sorted.length : Int)
    else startIndex + limit
  if 0 ≤ startIndex ∧ startIndex ≤ endIndex then
    some ((sorted.drop startIndex.toNat).take (endIndex - startIndex).toNat)
  else none

/-- Embedding of the SQL query run by
PostgresScheduledItemStore.GetNextScheduledItems over an abstract table
state (a list of rows): WHERE next_execution_at is at most now AND
(expiration IS NULL OR expiration is greater than now), ORDER BY
next_execution_at, LIMIT and OFFSET with nonnegative arguments. -/
def PostgresScheduledItemStore.GetNextScheduledItems
    (table : List ScheduledItem) (limit : Int) (offset : Int) (now : Int) :
    List ScheduledItem :=
  let rows := sortByNextExec (table.filter (fun item =>
    decide (item.nextExecutionAt ≤ now) &&
    (match item.expiration with
     | none => true
     | some e => decide (now < e))))
  (rows.drop offset.toNat).take limit.toNat

/-- State of the in-memory execution log store
(internal/store/execution_log_memory_store.go). -/
structure MemoryExecutionLogStore where
  logs : List (Int × ExecutionLog)
  nextID : Int
deriving DecidableEq

/-- Embedding of MemoryExecutionLogStore.CreateExecutionLog: assigns the
current nextID, increments it, stamps executedAt with now when it is the
zero instant, and stores the log. -/
def MemoryExecutionLogStore.CreateExecutionLog
    (s : MemoryExecutionLogStore) (now : Int) (log : ExecutionLog) :
    ExecutionLog × MemoryExecutionLogStore :=
  let log1 := { log with id := s.nextID }
  let log2 := if log1.executedAt = 0 then { log1 with executedAt := now }
              else log1
  (log2, { logs := mapInsert s.logs log2.id log2, nextID := s.nextID + 1 })

/-- Embedding of logExecution from the scheduler command: rejects a
nonpositive scheduled item id or a status outside the closed set
success / error / skipped without touching the store; otherwise appends a
log row stamped with now. -/
def logExecution (logStore : MemoryExecutionLogStore) (now : Int)
    (scheduledItemID : Int) (status : String)
    (errorMessage : Option String) (todoItemID : Option Int) :
    MemoryExecutionLogStore :=
  if scheduledItemID ≤ 0 then logStore
  else if status ≠ "success" ∧ status ≠ "error" ∧ status ≠ "skipped" then
    logStore
  else
    (logStore.CreateExecutionLog now
      { id := 0, scheduledItemId := scheduledItemID, executedAt := now,
        status := status, errorMessage := errorMessage,
        todoItemId := todoItemID }).2

/-- Embedding of createTodoText from the scheduler command. -/
def createTodoText (item : ScheduledItem) : String :=
  if item.description ≠ "" then item.title ++ " - " ++ item.description
  else item.title

/-- Embedding of updateProcessedScheduledItem from the scheduler command:
for a non-repeating item, delete it first; then recompute the next
execution from the item fields; persist it when an instant is returned,
delete the item otherwise. -/
def updateProcessedScheduledItem (parse : String → Option (Int → Int))
    (now : Int) (store : MemoryScheduledItemStore) (item : ScheduledItem) :
    MemoryScheduledItemStore :=
  let store1 := if !item.repeats then (store.DeleteScheduledItem item.id).2
                else store
  match CalculateNextExecution parse item.startsAt item.repeats
      item.cronExpression item.expiration now with
  | some t => (store1.UpdateNextExecutionAt item.id t).2
  | none => (store1.DeleteScheduledItem item.id).2

/-- State threaded through one processing tick: the todo store is abstract
(its state type is a parameter), the log and item stores are the in-memory
implementations. -/
structure TickState (τ : Type) where
  todoStore : τ
  logStore : MemoryExecutionLogStore
  itemStore : MemoryScheduledItemStore
  successCount : Int
  errorCount : Int

/-- Embedding of one iteration of the per-item loop in
processScheduledItems: build the todo, attempt creation; on success update
the source item and log success, on failure (nonpositive created id) log an
error and leave the item store untouched. -/
def processOneScheduledItem {τ : Type}
    (createTodoItem : τ → TodoItem → TodoItem × τ)
    (parse : String → Option (Int → Int)) (now : Int)
    (st : TickState τ) (item : ScheduledItem) : TickState τ :=
  let todoItem : TodoItem :=
    { id := 0, text := createTodoText item, checked := false }
  let res := createTodoItem st.todoStore todoItem
  if 0 < res.1.id then
    { todoStore := res.2,
      logStore := logExecution st.logStore now item.id "success" none
        (some res.1.id),
      itemStore := updateProcessedScheduledItem parse now st.itemStore item,
      successCount := st.successCount + 1,
      errorCount := st.errorCount }
  else
    { todoStore := res.2,
      logStore := logExecution st.logStore now item.id "error"
        (some "Failed to create todo item") none,
      itemStore := st.itemStore,
      successCount := st.successCount,
      errorCount := st.errorCount + 1 }

/-- Embedding of the per-item loop of processScheduledItems over a fetched
batch of due items: a plain left fold with no early exit. -/
def processScheduledItems {τ : Type}
    (createTodoItem : τ → TodoItem → TodoItem × τ)
    (parse : String → Option (Int → Int)) (now : Int)
    (st : TickState τ) (itemsDue : List ScheduledItem) : TickState τ :=
  itemsDue.foldl (processOneScheduledItem createTodoItem parse now) st

/-- Concrete item for boundary evaluations: due since instant 0, repeating,
expiring exactly at instant 5. -/
def demoItem : ScheduledItem :=
  { id := 1, title := "demo", description := "", startsAt := 0,
    repeats := true, cronExpression := some "0 * * * *",
    expiration := some 5, nextExecutionAt := 0 }

/-- Concrete schedule Next function for the tick witnesses: fires one
second after any instant. -/
def wf : Int → Int := fun t => t + second

/-- Concrete parser for the tick witnesses. -/
def wParse : String → Option (Int → Int) := fun _ => some wf

/-- Concrete repeating item for the tick witnesses. -/
def wItem : ScheduledItem :=
  { id := 1, title := "w", description := "", startsAt := 0,
    repeats := true, cronExpression := some "* * * * *",
    expiration := none, nextExecutionAt := 0 }

/-- Concrete store holding wItem. -/
def wStore : MemoryScheduledItemStore := { items := [(1, wItem)], nextID := 2 }

/-- Todo creation oracle that always fails: the returned id stays 0. -/
def wCreateFail : Unit → TodoItem → TodoItem × Unit := fun u t => (t, u)

/-- Concrete non-repeating due item for the failure-path witness. -/
def wFailItem : ScheduledItem :=
  { id := 7, title := "t", description := "", startsAt := 0,
    repeats := false, cronExpression := none, expiration := none,
    nextExecutionAt := 0 }

/-- Concrete tick state with empty stores. -/
def wTick : TickState Unit :=
  { todoStore := (), logStore := { logs := [], nextID := 1 },
    itemStore := { items := [], nextID := 1 },
    successCount := 0, errorCount := 0 }

/-- C5: for a non-repeating item, CalculateNextExecution returns startsAt
exactly when startsAt is strictly after now and none otherwise, regardless
of the cron expression and expiration arguments. -/
theorem CalculateNextExecution_nonRepeating
    (parse : String → Option (Int → Int)) (startsAt : Int)
    (cronExpression : Option String) (expiration : Option Int) (now : Int) :
    CalculateNextExecution parse startsAt false cronExpression expiration now
      = if now < startsAt then some startsAt else none := rfl

/-- C6: for a repeating item whose cron expression is absent, empty, or
fails to parse, CalculateNextExecution returns none for all values of
startsAt and expiration. -/
theorem CalculateNextExecution_invalidCron
    (parse : String → Option (Int → Int)) (startsAt : Int)
    (cronExpression : Option String) (expiration : Option Int) (now : Int)
    (h : cronExpression = none ∨ cronExpression = some "" ∨
      ∃ s, cronExpression = some s ∧ parse s = none) :
    CalculateNextExecution parse startsAt true cronExpression expiration now
      = none := by
  rcases h with h | h | ⟨s, hs, hp⟩
  · subst h; rfl
  · subst h; rfl
  · subst hs
    by_cases hs0 : s = ""
    · subst hs0; rfl
    · simp [CalculateNextExecution, hs0, hp]

/-- Witness for C6 at a concrete failing parse. -/
theorem CalculateNextExecution_invalidCron_witness :
    CalculateNextExecution (fun _ => none) 0 true (some "bogus") none 0
      = none :=
  CalculateNextExecution_invalidCron (fun _ => none) 0 (some "bogus") none 0
    (Or.inr (Or.inr ⟨"bogus", rfl, rfl⟩))

/-- C1 counterexample: a repeating item whose computed next fire time is
exactly equal to its expiration instant is returned by
CalculateNextExecution, not treated as expired: the expiration test in the
code is strict After. -/
theorem CalculateNextExecution_expirationBoundary_cex :
    demoParse "* * * * *" = some demoNext ∧ demoNext 0 = 60 ∧
    CalculateNextExecution demoParse 0 true (some "* * * * *") (some 60) 0
      = some 60 :=
  ⟨rfl, rfl, rfl⟩

/-- C1 (amended): with a present expiration, CalculateNextExecution returns
none when the computed next fire time is strictly after the expiration
instant; when the computed next fire time equals the expiration instant
exactly (and no start-time adjustment applies), that instant is returned. -/
theorem CalculateNextExecution_expirationStrict
    (parse : String → Option (Int → Int)) (f : Int → Int)
    (startsAt : Int) (expr : String) (e now : Int)
    (hexpr : expr ≠ "") (hf : parse expr = some f) :
    (e < f now →
      CalculateNextExecution parse startsAt true (some expr) (some e) now
        = none) ∧
    (f now = e → ¬ f now < startsAt →
      CalculateNextExecution parse startsAt true (some expr) (some e) now
        = some e) := by
  constructor
  · intro hlt
    simp [CalculateNextExecution, hexpr, hf, afterTime, hlt]
  · intro heq hge
    rw [heq] at hge
    simp [CalculateNextExecution, hexpr, hf, afterTime, heq, hge]

/-- Witness for C1 amended at the exact boundary. -/
theorem CalculateNextExecution_expirationStrict_witness :
    CalculateNextExecution demoParse 0 true (some "* * * * *") (some 60) 0
      = some 60 := by
  have h := CalculateNextExecution_expirationStrict demoParse demoNext 0
    "* * * * *" 60 0 (by decide) rfl
  exact h.2 rfl (by decide)

/-- C2 (code bug evidence): with now equal to 5, an item expiring exactly
at 5 is included by the in-memory GetNextScheduledItems (its skip test is
strict now.After(expiration)) but excluded by the Postgres query (which
keeps only expiration strictly greater than now). -/
theorem GetNextScheduledItems_expirationEqNow_evaluation :
    MemoryScheduledItemStore.GetNextScheduledItems
        { items := [(1, demoItem)], nextID := 2 } 10 0 5 = some [demoItem] ∧
    PostgresScheduledItemStore.GetNextScheduledItems [demoItem] 10 0 5
      = [] :=
  ⟨rfl, rfl⟩

/-- C3 (code bug evidence): on the same store contents, the same now, the
same limit and the same offset the in-memory and the Postgres
GetNextScheduledItems return different sequences at the boundary where an
item expires exactly at now. -/
theorem GetNextScheduledItems_implementationsDisagree :
    MemoryScheduledItemStore.GetNextScheduledItems
        { items := [(1, demoItem)], nextID := 2 } 10 0 5
      ≠ some (PostgresScheduledItemStore.GetNextScheduledItems
          [demoItem] 10 0 5) := by decide

/-- C4 (code bug evidence): with zero due items, limit 100 and offset 1,
the in-memory GetNextScheduledItems evaluates the slice
itemsDue[1:0], which panics in Go (modelled by none) instead of returning
an empty sequence. -/
theorem GetNextScheduledItems_offsetBeyondCount_panics :
    MemoryScheduledItemStore.GetNextScheduledItems
        { items := [], nextID := 1 } 100 1 0 = none := rfl

/-- C9: logExecution with a nonpositive scheduled item id, or a status
outside the closed set success / error / skipped, leaves the execution log
store unchanged: no row is created and the invalid value is never coerced. -/
theorem logExecution_rejectsInvalid
    (logStore : MemoryExecutionLogStore) (now : Int) (scheduledItemID : Int)
    (status : String) (errorMessage : Option String)
    (todoItemID : Option Int)
    (h : scheduledItemID ≤ 0 ∨
      (status ≠ "success" ∧ status ≠ "error" ∧ status ≠ "skipped")) :
    logExecution logStore now scheduledItemID status errorMessage todoItemID
      = logStore := by
  unfold logExecution
  rcases h with h | h
  · rw [if_pos h]
  · by_cases h0 : scheduledItemID ≤ 0
    · rw [if_pos h0]
    · rw [if_neg h0, if_pos h]

/-- Witness for C9 at a concrete invalid call. -/
theorem logExecution_rejectsInvalid_witness :
    logExecution { logs := [], nextID := 1 } 0 0 "success" none none
      = { logs := [], nextID := 1 } :=
  logExecution_rejectsInvalid { logs := [], nextID := 1 } 0 0 "success"
    none none (Or.inl (by decide))

/-- Replacing the binding of k in the association list and then looking k
up yields the new value exactly when k was bound. -/
theorem mapLookup_replace {α : Type} (m : List (Int × α)) (k : Int) (v : α) :
    mapLookup (m.map (fun p => if p.1 = k then (k, v) else p)) k
      = if mapMember m k then some v else none := by
  induction m with
  | nil => rfl
  | cons p rest ih =>
    by_cases hp : p.1 = k
    · simp [mapLookup, mapMember, hp]
    · simp [mapLookup, mapMember, hp, ih]

/-- Appending a fresh binding and looking its key up yields its value. -/
theorem mapLookup_append_single {α : Type} (m : List (Int × α)) (k : Int)
    (v : α) (h : mapMember m k = false) :
    mapLookup (m ++ [(k, v)]) k = some v := by
  induction m with
  | nil => simp [mapLookup]
  | cons p rest ih =>
    by_cases hp : p.1 = k
    · simp [mapMember, hp] at h
    · simp [mapMember, hp] at h
      simp [mapLookup, hp, ih h]

/-- Looking up the inserted key returns the inserted value. -/
theorem mapLookup_mapInsert_self {α : Type} (m : List (Int × α)) (k : Int)
    (v : α) : mapLookup (mapInsert m k v) k = some v := by
  unfold mapInsert
  by_cases hm : mapMember m k = true
  · simp [hm, mapLookup_replace]
  · simp only [hm, if_false, Bool.false_eq_true]
    exact mapLookup_append_single m k v (by simpa using hm)

/-- Replacing the binding of k leaves lookups of other keys unchanged. -/
theorem mapLookup_replace_ne {α : Type} (m : List (Int × α)) (k k' : Int)
    (v : α) (h : k' ≠ k) :
    mapLookup (m.map (fun p => if p.1 = k then (k, v) else p)) k'
      = mapLookup m k' := by
  induction m with
  | nil => rfl
  | cons p rest ih =>
    by_cases hp : p.1 = k
    · simp [mapLookup, hp, Ne.symm h, ih]
    · simp [mapLookup, hp, ih]

/-- Appending a binding for k leaves lookups of other keys unchanged. -/
theorem mapLookup_append_single_ne {α : Type} (m : List (Int × α))
    (k k' : Int) (v : α) (h : k' ≠ k) :
    mapLookup (m ++ [(k, v)]) k' = mapLookup m k' := by
  induction m with
  | nil => simp [mapLookup, Ne.symm h]
  | cons p rest ih =>
    by_cases hp : p.1 = k' <;> simp [mapLookup, hp, ih]

/-- Inserting a binding for k leaves lookups of other keys unchanged. -/
theorem mapLookup_mapInsert_ne {α : Type} (m : List (Int × α)) (k k' : Int)
    (v : α) (h : k' ≠ k) :
    mapLookup (mapInsert m k v) k' = mapLookup m k' := by
  unfold mapInsert
  by_cases hm : mapMember m k = true
  · simp [hm, mapLookup_replace_ne m k k' v h]
  · simp [hm, mapLookup_append_single_ne m k k' v h]

/-- Replacing the binding of k does not change the key set. -/
theorem mapMember_replace {α : Type} (m : List (Int × α)) (k k' : Int)
    (v : α) :
    mapMember (m.map (fun p => if p.1 = k then (k, v) else p)) k'
      = mapMember m k' := by
  induction m with
  | nil => rfl
  | cons p rest ih =>
    by_cases hp : p.1 = k
    · simp [mapMember, hp, ih]
    · simp [mapMember, hp, ih]

/-- Appending a binding for k does not affect membership of other keys. -/
theorem mapMember_append_single_ne {α : Type} (m : List (Int × α))
    (k k' : Int) (v : α) (h : k' ≠ k) :
    mapMember (m ++ [(k, v)]) k' = mapMember m k' := by
  induction m with
  | nil => simp [mapMember, Ne.symm h]
  | cons p rest ih =>
    by_cases hp : p.1 = k' <;> simp [mapMember, hp, ih]

/-- Every key present after an insertion is the inserted key or was already
present. -/
theorem mapMember_mapInsert {α : Type} (m : List (Int × α)) (k k' : Int)
    (v : α) (h : mapMember (mapInsert m k v) k' = true) :
    k' = k ∨ mapMember m k' = true := by
  unfold mapInsert at h
  by_cases hm : mapMember m k = true
  · rw [if_pos hm, mapMember_replace] at h
    exact Or.inr h
  · rw [if_neg hm] at h
    by_cases hk : k' = k
    · exact Or.inl hk
    · right
      rwa [mapMember_append_single_ne m k k' v hk] at h

/-- Erasing a key removes it from the lookup domain. -/
theorem mapLookup_mapErase_self {α : Type} (m : List (Int × α)) (k : Int) :
    mapLookup (mapErase m k) k = none := by
  induction m with
  | nil => rfl
  | cons p rest ih =>
    by_cases hp : p.1 = k <;> simp [mapErase, mapLookup, hp, ih]

/-- Inserting at a fresh key is an append. -/
theorem mapInsert_notMem {α : Type} (m : List (Int × α)) (k : Int) (v : α)
    (h : mapMember m k = false) : mapInsert m k v = m ++ [(k, v)] := by
  simp [mapInsert, h]

/-- C10: in the in-memory scheduled item store, under the store invariant
(nextID at least 1 and every present key below nextID), CreateScheduledItem
assigns the strictly positive identifier nextID, which is distinct from
every identifier previously assigned (any value below the current nextID),
stores the item under that identifier, leaves every other stored item
unchanged, preserves the invariant and strictly increases nextID; the
operation is total and never signals failure. -/
theorem CreateScheduledItem_freshPositiveId
    (s : MemoryScheduledItemStore) (item : ScheduledItem) (prev : List Int)
    (hpos : 1 ≤ s.nextID)
    (hkeys : ∀ k, mapMember s.items k = true → k < s.nextID)
    (hprev : ∀ i ∈ prev, i < s.nextID) :
    0 < (s.CreateScheduledItem item).1.id ∧
    (s.CreateScheduledItem item).1.id ∉ prev ∧
    mapLookup (s.CreateScheduledItem item).2.items
        (s.CreateScheduledItem item).1.id
      = some (s.CreateScheduledItem item).1 ∧
    (∀ k, k ≠ (s.CreateScheduledItem item).1.id →
      mapLookup (s.CreateScheduledItem item).2.items k
        = mapLookup s.items k) ∧
    1 ≤ (s.CreateScheduledItem item).2.nextID ∧
    (∀ k, mapMember (s.CreateScheduledItem item).2.items k = true →
      k < (s.CreateScheduledItem item).2.nextID) ∧
    s.nextID < (s.CreateScheduledItem item).2.nextID := by
  refine ⟨?_, ?_, ?_, ?_, ?_, ?_, ?_⟩
  · show 0 < s.nextID
    omega
  · show s.nextID ∉ prev
    intro hmem
    exact lt_irrefl _ (hprev _ hmem)
  · exact mapLookup_mapInsert_self _ _ _
  · intro k hk
    exact mapLookup_mapInsert_ne _ _ _ _ hk
  · show 1 ≤ s.nextID + 1
    omega
  · intro k hk
    show k < s.nextID + 1
    rcases mapMember_mapInsert _ _ _ _ hk with h | h
    · have h2 : k = s.nextID := h
      omega
    · have := hkeys k h
      omega
  · show s.nextID < s.nextID + 1
    omega

/-- Witness for C10 on the freshly constructed store. -/
theorem CreateScheduledItem_freshPositiveId_witness :
    0 < (NewMemoryScheduledItemStore.CreateScheduledItem wFailItem).1.id :=
  (CreateScheduledItem_freshPositiveId NewMemoryScheduledItemStore wFailItem
    [] (by decide)
    (fun k hk => by simp [NewMemoryScheduledItemStore, mapMember] at hk)
    (fun i hi => by simp at hi)).1

/-- For a repeating item whose cron expression parses to a schedule Next
function that makes progress, is monotone, and fires at least one second
after a previous fire, any instant returned by CalculateNextExecution is
strictly after now. -/
theorem CalculateNextExecution_gtNow
    (parse : String → Option (Int → Int)) (f : Int → Int)
    (startsAt : Int) (expr : String) (expiration : Option Int) (now t : Int)
    (hf : parse expr = some f)
    (hprog : ∀ x, x < f x)
    (hmono : ∀ x y, x ≤ y → f x ≤ f y)
    (hgap : ∀ x, f x + second ≤ f (f x))
    (hcalc : CalculateNextExecution parse startsAt true (some expr)
        expiration now = some t) :
    now < t := by
  by_cases hexpr : expr = ""
  · subst hexpr
    simp [CalculateNextExecution] at hcalc
  · simp only [CalculateNextExecution, Bool.not_true, if_neg, hexpr,
      if_false, hf] at hcalc
    by_cases c1 : afterTime expiration (f now) = true
    · simp [c1] at hcalc
    · by_cases c2 : f now < startsAt
      · by_cases c3 : afterTime expiration (f (startsAt - second)) = true
        · simp [c1, c2, c3] at hcalc
        · simp [c1, c2, c3] at hcalc
          subst hcalc
          by_cases hc : now ≤ startsAt - second
          · have h1 := hprog (startsAt - second)
            omega
          · have hc2 : startsAt - second ≤ now := by omega
            by_contra hcon
            have ht : f (startsAt - second) ≤ now := by omega
            have hm2 : f (f (startsAt - second)) ≤ f now := hmono _ _ ht
            have hg : f (startsAt - second) + second
                ≤ f (f (startsAt - second)) := hgap _
            have hp2 : startsAt - second < f (startsAt - second) :=
              hprog _
            omega
      · simp [c1, c2] at hcalc
        subst hcalc
        exact hprog now

/-- C8: for a due repeating item that is stored under its id, the
post-processing step computes the next execution with CalculateNextExecution
from the item fields; when an instant is returned the item still exists
with its nextExecutionAt moved strictly forward (under the cron schedule
hypotheses progress, monotonicity and minimum one-second spacing), and when
none is returned the item is deleted. -/
theorem updateProcessedScheduledItem_repeating
    (parse : String → Option (Int → Int)) (f : Int → Int) (now : Int)
    (store : MemoryScheduledItemStore) (item : ScheduledItem) (expr : String)
    (hrep : item.repeats = true)
    (hdue : item.nextExecutionAt ≤ now)
    (hlook : mapLookup store.items item.id = some item)
    (hexpr : item.cronExpression = some expr)
    (hf : parse expr = some f)
    (hprog : ∀ x, x < f x)
    (hmono : ∀ x y, x ≤ y → f x ≤ f y)
    (hgap : ∀ x, f x + second ≤ f (f x)) :
    (∀ t, CalculateNextExecution parse item.startsAt item.repeats
          item.cronExpression item.expiration now = some t →
        mapLookup (updateProcessedScheduledItem parse now store item).items
            item.id = some { item with nextExecutionAt := t } ∧
          item.nextExecutionAt < t) ∧
    (CalculateNextExecution parse item.startsAt item.repeats
        item.cronExpression item.expiration now = none →
      mapLookup (updateProcessedScheduledItem parse now store item).items
          item.id = none) := by
  constructor
  · intro t hcalc
    have hgt : now < t := by
      have hcalc2 := hcalc
      rw [hrep, hexpr] at hcalc2
      exact CalculateNextExecution_gtNow parse f item.startsAt expr
        item.expiration now t hf hprog hmono hgap hcalc2
    constructor
    · rw [hrep] at hcalc
      simp only [updateProcessedScheduledItem, hrep, Bool.not_true,
        Bool.false_eq_true, if_false, hcalc]
      simp only [MemoryScheduledItemStore.UpdateNextExecutionAt, hlook]
      rw [hrep]
      exact mapLookup_mapInsert_self _ _ _
    · omega
  · intro hcalc
    rw [hrep] at hcalc
    simp only [updateProcessedScheduledItem, hrep, Bool.not_true,
      Bool.false_eq_true, if_false, hcalc]
    simp only [MemoryScheduledItemStore.DeleteScheduledItem, hlook]
    exact mapLookup_mapErase_self _ _

/-- Witness for C8 on a concrete store and schedule. -/
theorem updateProcessedScheduledItem_repeating_witness :
    mapLookup (updateProcessedScheduledItem wParse 0 wStore wItem).items
        wItem.id = some { wItem with nextExecutionAt := second } ∧
    wItem.nextExecutionAt < second := by
  have h := updateProcessedScheduledItem_repeating wParse wf 0 wStore wItem
    "* * * * *" rfl (by decide) rfl rfl rfl
    (fun x => by simp only [wf, second]; omega)
    (fun x y hxy => by simp only [wf, second]; omega)
    (fun x => by simp only [wf, second]; omega)
  exact h.1 second rfl

/-- CreateExecutionLog on a log whose executedAt is already stamped with
now: assigns id nextID, inserts, bumps nextID. -/
theorem CreateExecutionLog_stamped (s : MemoryExecutionLogStore) (now : Int)
    (log : ExecutionLog) (h : log.executedAt = now) :
    s.CreateExecutionLog now log
      = ({ log with id := s.nextID },
         { logs := mapInsert s.logs s.nextID { log with id := s.nextID },
           nextID := s.nextID + 1 }) := by
  cases log with
  | mk i sid ex stt em tid =>
    subst h
    unfold MemoryExecutionLogStore.CreateExecutionLog
    by_cases h0 : ex = 0
    · subst h0
      rfl
    · simp [h0]

/-- A log write with a positive scheduled item id and a status in the
closed set appends exactly one row, stamped with now and the current
nextID, provided nextID is fresh in the log map. -/
theorem logExecution_valid (logStore : MemoryExecutionLogStore)
    (now sid : Int) (status : String) (em : Option String)
    (tid : Option Int)
    (hsid : 0 < sid)
    (hstatus : status = "success" ∨ status = "error" ∨ status = "skipped")
    (hfresh : mapMember logStore.logs logStore.nextID = false) :
    logExecution logStore now sid status em tid
      = { logs := logStore.logs ++
            [(logStore.nextID,
              { id := logStore.nextID, scheduledItemId := sid,
                executedAt := now, status := status, errorMessage := em,
                todoItemId := tid })],
          nextID := logStore.nextID + 1 } := by
  unfold logExecution
  rw [if_neg (not_le.mpr hsid)]
  rw [if_neg (by rcases hstatus with h | h | h <;> simp [h])]
  rw [CreateExecutionLog_stamped logStore now
    { id := 0, scheduledItemId := sid, executedAt := now, status := status,
      errorMessage := em, todoItemId := tid } rfl]
  simp only [mapInsert_notMem _ _ _ hfresh]

/-- C7: when todo creation fails for a due item with a positive id (the
created todo has a nonpositive id), the iteration records exactly one
execution log row with status error and the explanatory message
referencing the scheduled item id, leaves the scheduled item store
untouched (no reschedule, no delete), and the loop continues with the
remaining items of the batch. -/
theorem processScheduledItems_todoCreationFailure {τ : Type}
    (createTodoItem : τ → TodoItem → TodoItem × τ)
    (parse : String → Option (Int → Int)) (now : Int)
    (st : TickState τ) (item : ScheduledItem) (rest : List ScheduledItem)
    (hfail : (createTodoItem st.todoStore
        { id := 0, text := createTodoText item, checked := false }).1.id
      ≤ 0)
    (hid : 0 < item.id)
    (hfresh : mapMember st.logStore.logs st.logStore.nextID = false) :
    (processOneScheduledItem createTodoItem parse now st item).logStore.logs
      = st.logStore.logs ++
        [(st.logStore.nextID,
          { id := st.logStore.nextID, scheduledItemId := item.id,
            executedAt := now, status := "error",
            errorMessage := some "Failed to create todo item",
            todoItemId := none })] ∧
    (processOneScheduledItem createTodoItem parse now st item).itemStore
      = st.itemStore ∧
    processScheduledItems createTodoItem parse now st (item :: rest)
      = processScheduledItems createTodoItem parse now
          (processOneScheduledItem createTodoItem parse now st item) rest := by
  have hbranch : ¬ 0 < (createTodoItem st.todoStore
      { id := 0, text := createTodoText item, checked := false }).1.id :=
    not_lt.mpr hfail
  refine ⟨?_, ?_, rfl⟩
  · simp only [processOneScheduledItem]
    rw [if_neg hbranch]
    rw [logExecution_valid st.logStore now item.id "error"
      (some "Failed to create todo item") none hid (Or.inr (Or.inl rfl))
      hfresh]
  · simp only [processOneScheduledItem]
    rw [if_neg hbranch]

/-- Witness for C7 on a concrete batch with a failing todo store. -/
theorem processScheduledItems_todoCreationFailure_witness :
    (processOneScheduledItem wCreateFail demoParse 0 wTick
        wFailItem).logStore.logs
      = wTick.logStore.logs ++
        [(wTick.logStore.nextID,
          { id := wTick.logStore.nextID, scheduledItemId := wFailItem.id,
            executedAt := 0, status := "error",
            errorMessage := some "Failed to create todo item",
            todoItemId := none })] ∧
    (processOneScheduledItem wCreateFail demoParse 0 wTick
        wFailItem).itemStore = wTick.itemStore ∧
    processScheduledItems wCreateFail demoParse 0 wTick [wFailItem]
      = processScheduledItems wCreateFail demoParse 0
          (processOneScheduledItem wCreateFail demoParse 0 wTick wFailItem)
          [] :=
  processScheduledItems_todoCreationFailure wCreateFail demoParse 0 wTick
    wFailItem [] (by decide) (by decide) rfl
